import Mathlib

/-!
Verification development for `tailwind-dynamic-breakpoints`.

The development shallowly embeds the two source files of the repository:

* `src/lib/parser.js` — the token scanner built on the global regular
  expression `DYNAMIC_CLASS_REGEX = /media-(max|min)-(\d+):([\w\d\-\/\[\]\.\%]+)/g`
  and the `parseFiles` function that folds all matches of all files into a
  first-occurrence-wins map keyed by the full matched text;
* `src/index.js` — the `run` pipeline (config load, scan, generate, write,
  post-command) and the watch-mode wiring around `chokidar.watch`.

Texts are embedded as `List Char`; the JavaScript regular-expression scan is
embedded as an explicit left-to-right matcher (`matchAt` / `scanTokens`) that
reproduces the semantics of repeated `exec` with the `g` flag: leftmost match,
greedy character-class repetitions, scanning resuming at the end of each match.
-/

set_option maxRecDepth 4000

/-! ## Character classes of `DYNAMIC_CLASS_REGEX`

`\w` in a JavaScript regex is `[A-Za-z0-9_]` (ASCII only); `\d` is `[0-9]`.
The utility-class character set of the regex is `[\w\d\-\/\[\]\.\%]`.
-/

/-- ASCII letter, as matched by the `A-Za-z` part of JavaScript `\w`. -/
def isAsciiLetter (c : Char) : Bool :=
  ('a' ≤ c && c ≤ 'z') || ('A' ≤ c && c ≤ 'Z')

/-- JavaScript `\w`: ASCII letters, ASCII digits and underscore. -/
def isWordCharJS (c : Char) : Bool :=
  isAsciiLetter c || c.isDigit || c = '_'

/-- The utility-class character set `[\w\d\-\/\[\]\.\%]` of `DYNAMIC_CLASS_REGEX`. -/
def isSuffixChar (c : Char) : Bool :=
  isWordCharJS c || c.isDigit || c = '-' || c = '/' || c = '[' || c = ']' ||
    c = '.' || c = '%'

/-- One match of `DYNAMIC_CLASS_REGEX`: the three capture groups stored by
`parseFiles` as `{ type, value, utilityClass }`.  The full matched text
(`match[0]` in the source) is recovered by `fullMatch`. -/
structure Tok where
  type : List Char
  value : List Char
  utilityClass : List Char
deriving Repr, DecidableEq, Inhabited

/-- The literal `media-` that opens the regular expression. -/
def mediaLit : List Char := ['m', 'e', 'd', 'i', 'a', '-']

/-- The literal `max` of the `(max|min)` alternation. -/
def maxLit : List Char := ['m', 'a', 'x']

/-- The literal `min` of the `(max|min)` alternation. -/
def minLit : List Char := ['m', 'i', 'n']

/-- `match[0]`: the exact text matched by the regular expression,
`media-` ++ direction ++ `-` ++ digits ++ `:` ++ utility class. -/
def fullMatch (t : Tok) : List Char :=
  mediaLit ++ t.type ++ ['-'] ++ t.value ++ [':'] ++ t.utilityClass

/-- Match a literal character sequence at the head of the input, returning the
rest of the input on success. -/
def dropLit : List Char → List Char → Option (List Char)
  | [], cs => some cs
  | _ :: _, [] => none
  | p :: ps, c :: cs => if c = p then dropLit ps cs else none

/-- The `(max|min)` alternation: `max` is tried first, then `min`.  The two
literals differ at their second character, so at most one can match. -/
def matchDir (cs : List Char) : Option (List Char × List Char) :=
  match dropLit maxLit cs with
  | some rest => some (maxLit, rest)
  | none =>
    match dropLit minLit cs with
    | some rest => some (minLit, rest)
    | none => none

/-- Greedy repetition over a character class (`\d+`, `[...]+`): the longest
run of characters satisfying `p`, together with the rest of the input. -/
def spanChars (p : Char → Bool) : List Char → List Char × List Char
  | [] => ([], [])
  | c :: cs =>
    if p c then
      let (ts, rs) := spanChars p cs
      (c :: ts, rs)
    else ([], c :: cs)

/-- Attempt to match `DYNAMIC_CLASS_REGEX` anchored at the head of the input.
Returns the decomposed match and the remaining input after the match.

Greediness needs no backtracking here: after the greedy `\d+` run the regex
requires `:`, which is not a digit, and after the greedy suffix run nothing
more is required, so the maximal runs are exactly what the engine keeps. -/
def matchAt (cs : List Char) : Option (Tok × List Char) :=
  match dropLit mediaLit cs with
  | none => none
  | some r1 =>
    match matchDir r1 with
    | none => none
    | some (dir, r2) =>
      match r2 with
      | '-' :: r3 =>
        match spanChars Char.isDigit r3 with
        | ([], _) => none
        | (d :: ds, r4) =>
          match r4 with
          | ':' :: r5 =>
            match spanChars isSuffixChar r5 with
            | ([], _) => none
            | (s :: ss, r6) =>
              some ({ type := dir, value := d :: ds, utilityClass := s :: ss }, r6)
          | _ => none
      | _ => none

/-- One global-regex scan, fuelled by the input length: at each position try
`matchAt`; on success emit the match and resume after its end, otherwise
advance one character.  This is the semantics of the source's
`while ((match = DYNAMIC_CLASS_REGEX.exec(content)) !== null)` loop
(with `lastIndex` reset per file, matches are leftmost and non-overlapping). -/
def scanFuel : Nat → List Char → List Tok
  | 0, _ => []
  | _ + 1, [] => []
  | fuel + 1, c :: cs =>
    match matchAt (c :: cs) with
    | some (t, rest) => t :: scanFuel fuel rest
    | none => scanFuel fuel cs

/-- All matches of `DYNAMIC_CLASS_REGEX` in a text, in order of appearance. -/
def scanTokens (cs : List Char) : List Tok :=
  scanFuel cs.length cs

/-- The character (if any) that follows a match must lie outside the
utility-class set — i.e. the suffix run was maximal (greedy). -/
def greedyEnd : List Char → Bool
  | [] => true
  | c :: _ => !isSuffixChar c

/-- Well-formedness of a decomposed match: the shape dictated by the grammar
of `DYNAMIC_CLASS_REGEX`. -/
def tokWFb (t : Tok) : Bool :=
  (t.type = maxLit || t.type = minLit) &&
    !t.value.isEmpty && t.value.all Char.isDigit &&
    !t.utilityClass.isEmpty && t.utilityClass.all isSuffixChar

/-! ## `parseFiles` (src/lib/parser.js)

A scanned file is a path together with the result of `fs.readFile`:
`none` models a read that throws (the file is skipped with a warning).
The accumulator `allMatches` is a JavaScript object keyed by the full
matched text; since all keys contain `:` they are non-index keys, so the
object preserves insertion order — embedded as an association list. -/

/-- One file delivered by `glob.glob` + `fs.readFile`: `content = none`
models a file that cannot be read or decoded. -/
structure SourceFile where
  path : String
  content : Option (List Char)
deriving Repr

/-- Key lookup in the `allMatches` association list (JavaScript
`allMatches[fullMatch]`). -/
def findTok (k : List Char) : List (List Char × Tok) → Option Tok
  | [] => none
  | (k₂, t) :: rest => if k₂ = k then some t else findTok k rest

/-- The body of the match loop:
`if (!allMatches[fullMatch]) allMatches[fullMatch] = { type, value, utilityClass }` —
insert only when the key is absent (first occurrence wins). -/
def insertMatch (acc : List (List Char × Tok)) (t : Tok) : List (List Char × Tok) :=
  if (findTok (fullMatch t) acc).isSome then acc else acc ++ [(fullMatch t, t)]

/-- Scanning one file of the `for (const filePath of allFilePaths)` loop:
an unreadable file leaves the accumulator unchanged (warn and skip),
a readable one folds all its regex matches into the accumulator. -/
def scanFile (acc : List (List Char × Tok)) (f : SourceFile) : List (List Char × Tok) :=
  match f.content with
  | none => acc
  | some text => (scanTokens text).foldl insertMatch acc

/-- The main loop of `parseFiles` over the enumerated files. -/
def parseFiles (files : List SourceFile) : List (List Char × Tok) :=
  files.foldl scanFile []

/-- The warnings issued inside the file loop (`console.warn` on a failed
`fs.readFile`), in loop order. -/
def parseWarnings (files : List SourceFile) : List String :=
  files.filterMap fun f =>
    match f.content with
    | none => some ("Warning: Could not read file " ++ f.path ++ ". Skipping.")
    | some _ => none

/-- The JavaScript value of `tailwindConfig.content` as seen by
`parseFiles` and by `index.js`: absent (`undefined`), `null`, a single
glob string, or an array of glob strings. -/
inductive ContentVal where
  | undef
  | nullv
  | str (s : String)
  | arr (ls : List String)
deriving Repr, DecidableEq

/-- The guard `!contentGlobs || (Array.isArray(contentGlobs) && contentGlobs.length === 0)`:
`undefined`, `null` and the empty string are falsy; an empty array is caught
by the second disjunct. -/
def emptyOrMissing : ContentVal → Bool
  | .undef => true
  | .nullv => true
  | .str s => s.isEmpty
  | .arr ls => ls.isEmpty

/-- `const globsArray = Array.isArray(contentGlobs) ? contentGlobs : [contentGlobs]`
(only reached when the guard above is false). -/
def globsArray : ContentVal → List String
  | .str s => [s]
  | .arr ls => ls
  | _ => []

/-- Whole `parseFiles` including the empty/missing-content guard; the
enumeration performed by `glob.glob(globsArray, { nodir: true })` is an
external collaborator and enters as the function `enumerate`. -/
def parseFilesTop (contentGlobs : ContentVal)
    (enumerate : List String → List SourceFile) : List (List Char × Tok) :=
  if emptyOrMissing contentGlobs then []
  else parseFiles (enumerate (globsArray contentGlobs))

/-- All regex matches of all readable files, in enumeration order — the
token stream that `parseFiles` folds into its map. -/
def tokensOf (files : List SourceFile) : List Tok :=
  files.foldr (fun f acc =>
    match f.content with
    | none => acc
    | some text => scanTokens text ++ acc) []

/-- First-occurrence deduplication of a key list, relative to keys already
seen. -/
def dedupFirstAux (seen : List (List Char)) : List (List Char) → List (List Char)
  | [] => []
  | k :: ks =>
    if k ∈ seen then dedupFirstAux seen ks
    else k :: dedupFirstAux (k :: seen) ks

/-- First-occurrence deduplication of a key list. -/
def dedupFirstKeys (ks : List (List Char)) : List (List Char) :=
  dedupFirstAux [] ks

/-- Lexicographic comparison of paths, used only by the spec-side variant
`parseFilesSortedSpec` below. -/
def lexLe : List Char → List Char → Bool
  | [], _ => true
  | _ :: _, [] => false
  | a :: as, b :: bs => if a < b then true else if a = b then lexLe as bs else false

/-- Insertion into a path-sorted file list. -/
def insertByPath (f : SourceFile) : List SourceFile → List SourceFile
  | [] => [f]
  | g :: gs =>
    if lexLe f.path.data g.path.data then f :: g :: gs
    else g :: insertByPath f gs

/-- Insertion sort of a file list by path. -/
def sortByPath : List SourceFile → List SourceFile
  | [] => []
  | f :: fs => insertByPath f (sortByPath fs)

/-- Written from the spec's words, for refinement comparison only: the spec
claims the scanner "enumerates matching files in a deterministic (sorted)
order", i.e. behaves as if the enumerated file list were sorted by path
before scanning. -/
def parseFilesSortedSpec (files : List SourceFile) : List (List Char × Tok) :=
  parseFiles (sortByPath files)

/-! ## Scanner lemmas -/

theorem dropLit_append {p cs r : List Char} (h : dropLit p cs = some r) :
    cs = p ++ r := by
  induction p generalizing cs with
  | nil =>
    simp only [dropLit, Option.some.injEq] at h
    simpa using h
  | cons a p ih =>
    cases cs with
    | nil => simp [dropLit] at h
    | cons c cs =>
      simp only [dropLit] at h
      split at h
      · next heq => simp [heq, ih h]
      · exact absurd h (by simp)

theorem matchDir_spec {cs : List Char} {d r : List Char}
    (h : matchDir cs = some (d, r)) :
    (d = maxLit ∨ d = minLit) ∧ cs = d ++ r := by
  unfold matchDir at h
  split at h
  · next hmax =>
    obtain ⟨rfl, rfl⟩ := Prod.mk.injEq .. ▸ (Option.some.injEq .. ▸ h :)
    exact ⟨Or.inl rfl, dropLit_append hmax⟩
  · next =>
    split at h
    · next hmin =>
      obtain ⟨rfl, rfl⟩ := Prod.mk.injEq .. ▸ (Option.some.injEq .. ▸ h :)
      exact ⟨Or.inr rfl, dropLit_append hmin⟩
    · next => cases h

theorem spanChars_spec (p : Char → Bool) (l : List Char) :
    l = (spanChars p l).1 ++ (spanChars p l).2 ∧
      (∀ c ∈ (spanChars p l).1, p c = true) ∧
      (∀ c r, (spanChars p l).2 = c :: r → p c = false) := by
  induction l with
  | nil => simp [spanChars]
  | cons a l ih =>
    by_cases ha : p a = true
    · simp only [spanChars, ha, if_true]
      refine ⟨by simpa using ih.1, ?_, by simpa using ih.2.2⟩
      intro c hc
      rcases List.mem_cons.mp hc with rfl | hc
      · exact ha
      · exact ih.2.1 c hc
    · simp only [spanChars, ha, if_false]
      refine ⟨rfl, by simp, ?_⟩
      intro c r hcr
      cases hcr
      simpa using ha

theorem spanChars_eq {p : Char → Bool} {l ts rs : List Char}
    (h : spanChars p l = (ts, rs)) :
    l = ts ++ rs ∧ (∀ c ∈ ts, p c = true) ∧
      (∀ c r, rs = c :: r → p c = false) := by
  have := spanChars_spec p l
  rw [h] at this
  exact this

theorem matchAt_spec {cs rest : List Char} {t : Tok}
    (h : matchAt cs = some (t, rest)) :
    cs = fullMatch t ++ rest ∧ tokWFb t = true ∧ greedyEnd rest = true := by
  unfold matchAt at h
  split at h
  · cases h
  next r1 h1 =>
  split at h
  · cases h
  next dir r2 h2 =>
  split at h
  case h_2 => cases h
  next r3 =>
  split at h
  · cases h
  next d ds r4 h4 =>
  split at h
  case h_2 => cases h
  next r5 =>
  split at h
  · cases h
  next s ss r6 h6 =>
  simp only [Option.some.injEq, Prod.mk.injEq] at h
  obtain ⟨ht, rfl⟩ := h
  obtain ⟨hdir, hr1⟩ := matchDir_spec h2
  obtain ⟨hr3, hds, _⟩ := spanChars_eq h4
  obtain ⟨hr5, hss, hr6head⟩ := spanChars_eq h6
  refine ⟨?_, ?_, ?_⟩
  · rw [dropLit_append h1, hr1, hr3, hr5, ← ht]
    simp [fullMatch]
  · rw [← ht]
    simp only [tokWFb]
    have hmaxmin : (dir = maxLit || dir = minLit) = true := by
      rcases hdir with h | h <;> simp [h]
    simp only [hmaxmin, List.all_eq_true, Bool.true_and, List.isEmpty_cons,
      Bool.not_false, Bool.and_true, Bool.and_eq_true]
    exact ⟨hds, hss⟩
  · rcases r6 with _ | ⟨c6, r7⟩
    · simp [greedyEnd]
    · simp [greedyEnd, hr6head c6 r7 rfl]

theorem scanFuel_sound :
    ∀ (fuel : Nat) (cs : List Char) (t : Tok), t ∈ scanFuel fuel cs →
      tokWFb t = true ∧
        ∃ pre post, cs = pre ++ fullMatch t ++ post ∧ greedyEnd post = true := by
  intro fuel
  induction fuel with
  | zero => intro cs t h; simp [scanFuel] at h
  | succ fuel ih =>
    intro cs t h
    cases cs with
    | nil => simp [scanFuel] at h
    | cons c cs =>
      simp only [scanFuel] at h
      cases hm : matchAt (c :: cs) with
      | some pr =>
        obtain ⟨t₀, rest⟩ := pr
        rw [hm] at h
        rcases List.mem_cons.mp h with rfl | h
        · obtain ⟨hdec, hwf, hg⟩ := matchAt_spec hm
          exact ⟨hwf, [], rest, by simpa using hdec, hg⟩
        · obtain ⟨hwf, pre, post, hdec, hg⟩ := ih rest t h
          obtain ⟨hdec₀, _, _⟩ := matchAt_spec hm
          refine ⟨hwf, fullMatch t₀ ++ pre, post, ?_, hg⟩
          rw [hdec₀, hdec]
          simp
      | none =>
        rw [hm] at h
        obtain ⟨hwf, pre, post, hdec, hg⟩ := ih cs t h
        exact ⟨hwf, c :: pre, post, by simp [hdec], hg⟩

/-! ## Claim C1 -/

/-- Text of the C1 counterexample: contains two overlapping occurrences of
the token grammar. -/
def cexText : List Char := "media-max-1:media-min-2:b".toList

/-- The grammar-conforming substring of `cexText` that the scanner does not
extract. -/
def cexTok : Tok :=
  { type := minLit, value := ['2'], utilityClass := ['b'] }

/-- The part of `cexText` before the overlapped occurrence. -/
def cexPre : List Char := "media-max-1:".toList

/-- C1, counterexample.  The claim says the scanner extracts *exactly* the
substrings conforming to the token grammar (with the class suffix greedy).
In `media-max-1:media-min-2:b`, the substring `media-min-2:b` conforms to the
grammar — prefix `media-`, direction `min`, digits `2`, colon, suffix `b`,
greedy since it ends the text — yet the scanner does not extract it: the
earlier match `media-max-1:media-min-2` overlaps it, and a global regex scan
resumes only after the end of each match. -/
theorem C1_counterexample :
    cexText = cexPre ++ fullMatch cexTok ++ [] ∧
      tokWFb cexTok = true ∧ greedyEnd ([] : List Char) = true ∧
      cexTok ∉ scanTokens cexText ∧
      fullMatch cexTok ∉ (scanTokens cexText).map fullMatch := by
  refine ⟨by decide, by decide, by decide, by decide, by decide⟩

/-- C1, amended.  Every token extracted by the scanner conforms to the
grammar of `DYNAMIC_CLASS_REGEX` — it decomposes into the literal prefix
`media-`, a direction `max` or `min`, a hyphen, one or more decimal digits, a
colon and one or more class-suffix characters — and occurs in the text with
a greedy class suffix (the character following the match, if any, lies
outside the class-suffix set).  Extraction is leftmost non-overlapping, so
the converse of the original claim fails: a grammar-conforming substring
overlapping an earlier match is not extracted (see the counterexample). -/
theorem C1_theorem (text : List Char) (t : Tok) (h : t ∈ scanTokens text) :
    tokWFb t = true ∧
      ∃ pre post, text = pre ++ fullMatch t ++ post ∧ greedyEnd post = true :=
  scanFuel_sound text.length text t h

/-- The token `media-max-768:hidden` of the spec's running example, used as a
concrete evaluation point. -/
def demoTok : Tok :=
  { type := maxLit, value := ['7', '6', '8'],
    utilityClass := ['h', 'i', 'd', 'd', 'e', 'n'] }

/-- Witness for C1: the token scanned from `media-max-768:hidden` satisfies
the amended statement. -/
theorem C1_witness :
    demoTok ∈ scanTokens "media-max-768:hidden".toList ∧
      (tokWFb demoTok = true ∧
        ∃ pre post, "media-max-768:hidden".toList =
            pre ++ fullMatch demoTok ++ post ∧ greedyEnd post = true) :=
  ⟨by decide, C1_theorem _ _ (by decide)⟩

/-! ## Claim C9 -/

/-- C9.  The regular expression has no boundary assertion before the literal
`media-`: prepending any single word or class-suffix character to a token
text changes nothing — the token is still extracted.  Concretely, scanning
`c ++ "media-max-768:hidden"` yields exactly the token `media-max-768:hidden`
for every such `c` (in particular for `c = 'x'`, i.e. the text
`xmedia-max-768:hidden`). -/
theorem C9_theorem (c : Char)
    (_h : isWordCharJS c = true ∨ isSuffixChar c = true) :
    scanTokens (c :: "media-max-768:hidden".toList) = [demoTok] := by
  by_cases hc : c = 'm'
  · subst hc; decide
  · have hmatch : matchAt (c :: "media-max-768:hidden".toList) = none := by
      unfold matchAt
      have hdrop : dropLit mediaLit (c :: "media-max-768:hidden".toList) = none := by
        simp only [mediaLit, dropLit]
        split
        · next heq =>
          subst heq
          decide
        · rfl
      rw [hdrop]
    show scanFuel (c :: "media-max-768:hidden".toList).length
        (c :: "media-max-768:hidden".toList) = _
    rw [List.length_cons]
    simp only [scanFuel, hmatch]
    decide

/-- Witness for C9 at `c = 'x'`: the text `xmedia-max-768:hidden` yields the
token `media-max-768:hidden`. -/
theorem C9_witness :
    (isWordCharJS 'x' = true ∨ isSuffixChar 'x' = true) ∧
      scanTokens ('x' :: "media-max-768:hidden".toList) = [demoTok] :=
  ⟨Or.inl (by decide), C9_theorem 'x' (Or.inl (by decide))⟩

/-! ## Map lemmas for `parseFiles` -/

theorem findTok_eq_none_iff (k : List Char) (l : List (List Char × Tok)) :
    findTok k l = none ↔ k ∉ l.map Prod.fst := by
  induction l with
  | nil => simp [findTok]
  | cons p l ih =>
    obtain ⟨k₂, t⟩ := p
    by_cases hk : k₂ = k
    · subst hk; simp [findTok]
    · simp [findTok, hk, ih, Ne.symm hk]

theorem findTok_isSome_iff (k : List Char) (l : List (List Char × Tok)) :
    (findTok k l).isSome = true ↔ k ∈ l.map Prod.fst := by
  rcases h : findTok k l with _ | v
  · simpa [h] using (findTok_eq_none_iff k l).mp h
  · simp only [Option.isSome_some, true_iff]
    by_contra hk
    rw [(findTok_eq_none_iff k l).mpr hk] at h
    cases h

theorem findTok_append_of_some {k : List Char} {v : Tok}
    {l₁ l₂ : List (List Char × Tok)} (h : findTok k l₁ = some v) :
    findTok k (l₁ ++ l₂) = some v := by
  induction l₁ with
  | nil => simp [findTok] at h
  | cons p l ih =>
    obtain ⟨k₂, t⟩ := p
    simp only [findTok, List.cons_append] at h ⊢
    split at h
    · next hk => simp [hk, h]
    · next hk => simp only [hk, if_false]; exact ih h

theorem findTok_insertMatch_of_some {k : List Char} {v : Tok}
    {acc : List (List Char × Tok)} {t : Tok}
    (h : findTok k acc = some v) :
    findTok k (insertMatch acc t) = some v := by
  unfold insertMatch
  split
  · exact h
  · exact findTok_append_of_some h

theorem findTok_foldl_insertMatch_of_some {k : List Char} {v : Tok}
    (ts : List Tok) :
    ∀ acc : List (List Char × Tok), findTok k acc = some v →
      findTok k (ts.foldl insertMatch acc) = some v := by
  induction ts with
  | nil => intro acc h; simpa using h
  | cons t ts ih =>
    intro acc h
    simpa [List.foldl_cons] using ih _ (findTok_insertMatch_of_some h)

theorem findTok_scanFile_of_some {k : List Char} {v : Tok}
    {acc : List (List Char × Tok)} {f : SourceFile}
    (h : findTok k acc = some v) :
    findTok k (scanFile acc f) = some v := by
  unfold scanFile
  cases f.content with
  | none => exact h
  | some text => exact findTok_foldl_insertMatch_of_some _ _ h

theorem findTok_foldl_scanFile_of_some {k : List Char} {v : Tok}
    (files : List SourceFile) :
    ∀ acc : List (List Char × Tok), findTok k acc = some v →
      findTok k (files.foldl scanFile acc) = some v := by
  induction files with
  | nil => intro acc h; simpa using h
  | cons f fs ih =>
    intro acc h
    simpa [List.foldl_cons] using ih _ (findTok_scanFile_of_some h)

theorem keysNodup_insertMatch {acc : List (List Char × Tok)} (t : Tok)
    (h : (acc.map Prod.fst).Nodup) :
    ((insertMatch acc t).map Prod.fst).Nodup := by
  unfold insertMatch
  split
  · exact h
  · next hnone =>
    have hk : fullMatch t ∉ acc.map Prod.fst := by
      rw [← findTok_eq_none_iff]
      rcases hft : findTok (fullMatch t) acc with _ | v
      · rfl
      · rw [hft] at hnone; simp at hnone
    rw [List.map_append]
    exact List.nodup_append.mpr ⟨h, List.nodup_singleton _,
      by simpa [List.disjoint_right] using hk⟩

theorem keysNodup_foldl_insertMatch (ts : List Tok) :
    ∀ acc : List (List Char × Tok), (acc.map Prod.fst).Nodup →
      ((ts.foldl insertMatch acc).map Prod.fst).Nodup := by
  induction ts with
  | nil => intro acc h; simpa using h
  | cons t ts ih =>
    intro acc h
    simpa [List.foldl_cons] using ih _ (keysNodup_insertMatch t h)

theorem keysNodup_scanFile {acc : List (List Char × Tok)} (f : SourceFile)
    (h : (acc.map Prod.fst).Nodup) :
    ((scanFile acc f).map Prod.fst).Nodup := by
  unfold scanFile
  cases f.content with
  | none => exact h
  | some text => exact keysNodup_foldl_insertMatch _ _ h

theorem keysNodup_parseFiles (files : List SourceFile) :
    ((parseFiles files).map Prod.fst).Nodup := by
  suffices h : ∀ acc : List (List Char × Tok), (acc.map Prod.fst).Nodup →
      ((files.foldl scanFile acc).map Prod.fst).Nodup from h [] (by simp)
  induction files with
  | nil => intro acc h; simpa using h
  | cons f fs ih =>
    intro acc h
    simpa [List.foldl_cons] using ih _ (keysNodup_scanFile f h)

theorem findTok_mem_keys {k : List Char} {v : Tok} {l : List (List Char × Tok)}
    (h : findTok k l = some v) : k ∈ l.map Prod.fst := by
  rw [← findTok_isSome_iff, h]
  rfl

theorem nodup_countP_eq_one {l : List (List Char)} (h : l.Nodup)
    {a : List Char} (ha : a ∈ l) :
    l.countP (fun b => decide (b = a)) = 1 := by
  induction l with
  | nil => cases ha
  | cons b l ih =>
    rw [List.countP_cons]
    rcases List.mem_cons.mp ha with rfl | ha₂
    · have hb : a ∉ l := (List.nodup_cons.mp h).1
      have hz : l.countP (fun x => decide (x = a)) = 0 := by
        apply List.countP_eq_zero.mpr
        intro x hx
        simp only [decide_eq_true_eq]
        rintro rfl
        exact hb hx
      simp [hz]
    · have h2 := ih (List.nodup_cons.mp h).2 ha₂
      have hba : ¬b = a := by
        rintro rfl
        exact (List.nodup_cons.mp h).1 ha₂
      simp [h2, hba]

/-! ## Claim C2 -/

/-- C2.  The `TokenSet` built by `parseFiles` maps each distinct raw token
text to exactly one entry, first occurrence wins: if a raw token `r` is
already bound to `v` after scanning `files`, then scanning any further files
`more` neither re-adds nor overwrites it — the binding in the final map is
still `v`, the keys are still free of duplicates, and the final map has
exactly one entry for `r`. -/
theorem C2_theorem (files more : List SourceFile) (r : List Char) (v : Tok)
    (h : findTok r (parseFiles files) = some v) :
    findTok r (parseFiles (files ++ more)) = some v ∧
      ((parseFiles (files ++ more)).map Prod.fst).Nodup ∧
      ((parseFiles (files ++ more)).map Prod.fst).countP
        (fun b => decide (b = r)) = 1 := by
  have hsome : findTok r (parseFiles (files ++ more)) = some v := by
    unfold parseFiles
    rw [List.foldl_append]
    exact findTok_foldl_scanFile_of_some more _ h
  have hnd := keysNodup_parseFiles (files ++ more)
  exact ⟨hsome, hnd, nodup_countP_eq_one hnd (findTok_mem_keys hsome)⟩

/-- First file of the C2 witness: contains `media-max-768:hidden`. -/
def fileA : SourceFile :=
  { path := "a.html", content := some "<div class=media-max-768:hidden>".toList }

/-- Second file of the C2 witness: contains the same token again. -/
def fileB : SourceFile :=
  { path := "b.html", content := some "<p class=media-max-768:hidden>".toList }

/-- Witness for C2: two files containing the same token yield exactly one
`TokenSet` entry for it, bound to the parse from the first file. -/
theorem C2_witness :
    findTok (fullMatch demoTok) (parseFiles [fileA]) = some demoTok ∧
      (findTok (fullMatch demoTok) (parseFiles [fileA, fileB]) = some demoTok ∧
        ((parseFiles [fileA, fileB]).map Prod.fst).Nodup ∧
        ((parseFiles [fileA, fileB]).map Prod.fst).countP
          (fun b => decide (b = fullMatch demoTok)) = 1) :=
  ⟨by decide, C2_theorem [fileA] [fileB] (fullMatch demoTok) demoTok (by decide)⟩

/-! ## Claim C6 -/

theorem foldl_scanFile_filter (files : List SourceFile) :
    ∀ acc : List (List Char × Tok),
      files.foldl scanFile acc =
        (files.filter fun f => f.content.isSome).foldl scanFile acc := by
  induction files with
  | nil => intro acc; rfl
  | cons f fs ih =>
    intro acc
    cases hc : f.content with
    | none =>
      have hf : scanFile acc f = acc := by simp [scanFile, hc]
      simp [List.foldl_cons, List.filter_cons, hc, hf, ih]
    | some text =>
      simp [List.foldl_cons, List.filter_cons, hc, ih]

/-- C6.  A file that cannot be read is skipped and does not abort the scan:
`parseFiles` returns exactly the map obtained from the readable files alone
(so every token of every readable file still appears), and each unreadable
file produces a warning naming its path. -/
theorem C6_theorem (files : List SourceFile) :
    parseFiles files = parseFiles (files.filter fun f => f.content.isSome) ∧
      ∀ f ∈ files, f.content = none →
        ("Warning: Could not read file " ++ f.path ++ ". Skipping.")
          ∈ parseWarnings files := by
  constructor
  · exact foldl_scanFile_filter files []
  · intro f hf hc
    unfold parseWarnings
    apply List.mem_filterMap.mpr
    exact ⟨f, hf, by rw [hc]⟩

/-- The unreadable file of the C6 witness. -/
def fileBad : SourceFile := { path := "broken.html", content := none }

/-- Witness for C6: with an unreadable file between two readable ones, the
map equals the map of the readable files and the warning names the
unreadable path. -/
theorem C6_witness :
    parseFiles [fileA, fileBad, fileB] =
        parseFiles ([fileA, fileBad, fileB].filter fun f => f.content.isSome) ∧
      ("Warning: Could not read file broken.html. Skipping.")
        ∈ parseWarnings [fileA, fileBad, fileB] :=
  ⟨(C6_theorem [fileA, fileBad, fileB]).1,
    (C6_theorem [fileA, fileBad, fileB]).2 fileBad (by simp) rfl⟩

/-! ## Claim C3 -/

theorem foldl_scanFile_eq_foldl_insertMatch (files : List SourceFile) :
    ∀ acc : List (List Char × Tok),
      files.foldl scanFile acc = (tokensOf files).foldl insertMatch acc := by
  induction files with
  | nil => intro acc; rfl
  | cons f fs ih =>
    intro acc
    cases hc : f.content with
    | none =>
      have hf : scanFile acc f = acc := by simp [scanFile, hc]
      simp [List.foldl_cons, tokensOf, hc, hf, ih,
        show tokensOf (f :: fs) = tokensOf fs by simp [tokensOf, hc]]
    | some text =>
      have hf : scanFile acc f = (scanTokens text).foldl insertMatch acc := by
        simp [scanFile, hc]
      have ht : tokensOf (f :: fs) = scanTokens text ++ tokensOf fs := by
        simp [tokensOf, hc]
      rw [List.foldl_cons, hf, ih, ht, List.foldl_append]

theorem keys_foldl_insertMatch (ts : List Tok) :
    ∀ (acc : List (List Char × Tok)) (seen : List (List Char)),
      (∀ k, k ∈ seen ↔ k ∈ acc.map Prod.fst) →
      (ts.foldl insertMatch acc).map Prod.fst =
        acc.map Prod.fst ++ dedupFirstAux seen (ts.map fullMatch) := by
  induction ts with
  | nil => intro acc seen _; simp [dedupFirstAux]
  | cons t ts ih =>
    intro acc seen hiff
    by_cases hmem : fullMatch t ∈ seen
    · have hsome : (findTok (fullMatch t) acc).isSome = true :=
        (findTok_isSome_iff _ _).mpr ((hiff _).mp hmem)
      have hins : insertMatch acc t = acc := by simp [insertMatch, hsome]
      simp only [List.foldl_cons, hins, List.map_cons, dedupFirstAux, hmem,
        if_true]
      exact ih acc seen hiff
    · have hnone : (findTok (fullMatch t) acc).isSome = false := by
        rcases hft : findTok (fullMatch t) acc with _ | v
        · rfl
        · exact absurd ((findTok_isSome_iff _ _).mp (by simp [hft]))
            (fun hk => hmem ((hiff _).mpr hk))
      have hins : insertMatch acc t = acc ++ [(fullMatch t, t)] := by
        simp [insertMatch, hnone]
      have hiff₂ : ∀ k, k ∈ fullMatch t :: seen ↔
          k ∈ (acc ++ [(fullMatch t, t)]).map Prod.fst := by
        intro k
        simp only [List.mem_cons, List.map_append, List.mem_append, hiff,
          List.map_cons, List.map_nil, List.mem_singleton]
        tauto
      simp only [List.foldl_cons, hins, List.map_cons, dedupFirstAux, hmem,
        if_false]
      rw [ih (acc ++ [(fullMatch t, t)]) (fullMatch t :: seen) hiff₂]
      simp

/-- C3, amended.  Given the file list delivered by the external `glob` call,
the scan is a pure function of that enumeration: the key list of the
resulting `TokenSet` — and hence the insertion order of tokens, group order
and rule order downstream — is exactly the first-occurrence order of the
regex matches over the files in enumeration order.  Re-running on an
unchanged enumeration with unchanged contents therefore reproduces the
output byte for byte; but the scanner itself applies no sorting (see the
counterexample), so determinism across runs rests on the external
enumeration being deterministic. -/
theorem C3_theorem (files : List SourceFile) :
    (parseFiles files).map Prod.fst =
      dedupFirstKeys ((tokensOf files).map fullMatch) := by
  unfold parseFiles dedupFirstKeys
  rw [foldl_scanFile_eq_foldl_insertMatch files []]
  simpa using keys_foldl_insertMatch (tokensOf files) [] [] (by simp)

/-- First file of the C3 counterexample (path sorts second, enumerated
first). -/
def fileBfirst : SourceFile :=
  { path := "b.txt", content := some "media-max-2:x".toList }

/-- Second file of the C3 counterexample (path sorts first, enumerated
second). -/
def fileAsecond : SourceFile :=
  { path := "a.txt", content := some "media-max-1:y".toList }

/-- C3, counterexample.  The claim says the scanner enumerates files in a
deterministic *sorted* order.  `parseFiles` applies no sorting: handed the
enumeration `[b.txt, a.txt]`, it scans in exactly that order, and its result
differs from the spec-described sorted-order scan of the same files — the
token of `b.txt` comes first, not the token of the alphabetically first
file. -/
theorem C3_counterexample :
    parseFiles [fileBfirst, fileAsecond] ≠
        parseFilesSortedSpec [fileBfirst, fileAsecond] ∧
      (parseFiles [fileBfirst, fileAsecond]).map Prod.fst =
        ["media-max-2:x".toList, "media-max-1:y".toList] ∧
      (parseFilesSortedSpec [fileBfirst, fileAsecond]).map Prod.fst =
        ["media-max-1:y".toList, "media-max-2:x".toList] := by
  refine ⟨by decide, by decide, by decide⟩

/-! ## The `run` pipeline (src/index.js)

`generateCss` lives in `src/lib/generator.js`, which is not among the
provided sources; the definitions below marked "Modelled from the spec"
reconstruct it from the specification (Rule Resolver §4.2, Stylesheet
Assembler §4.3).  Everything else follows `src/index.js`. -/

/-- The CLI argument object built by yargs (`CLIConfig` typedef in the
source). -/
structure CLIConfig where
  output : String
  config : String
  watch : Bool
  postCommand : Option String
deriving Repr

/-- The (normalized) tailwind configuration object; only its `content`
field is consumed by this tool. -/
structure TwConfig where
  content : ContentVal
deriving Repr, DecidableEq

/-- The value returned by `require(tailwindConfigPath)`: either an
ES-module interop object `{ default: cfg }` or a plain CommonJS
`module.exports = cfg`. -/
inductive LoadedModule where
  | esm (cfg : TwConfig)
  | cjs (cfg : TwConfig)
deriving Repr, DecidableEq

/-- `tailwindConfig = loadedConfig.default || loadedConfig`. -/
def resolveModule : LoadedModule → TwConfig
  | .esm cfg => cfg
  | .cjs cfg => cfg

/-- The per-run environment: the external collaborators touched by one run.
`enumerate` stands for `glob.glob` + `fs.readFile` over the content globs;
`engineOk`/`engine` for the external CSS engine (structural availability and
per-class resolution); `writeOk` for `fs.writeFile` on the output path;
`postOk` for the exit status of the post-generation shell command. -/
structure RunEnvBase where
  enumerate : List String → List SourceFile
  engineOk : Bool
  engine : List Char → Option String
  writeOk : Bool
  postOk : Bool

/-- Modelled from the spec: CSS-selector escaping for the characters of a
raw token that are special in a selector (§4.3: "escaped as required by CSS
selector syntax for the literal colon and brackets"). -/
def escapeSelector (raw : List Char) : List Char :=
  raw.foldr
    (fun c acc =>
      if c = ':' || c = '[' || c = ']' || c = '.' || c = '/' || c = '%' then
        '\\' :: c :: acc
      else c :: acc) []

/-- Modelled from the spec: one CSS rule of a media-query block — selector
built from the raw token text, body equal to the resolved declarations
(§4.3). -/
def cssRule (raw : List Char) (decls : String) : String :=
  "." ++ String.mk (escapeSelector raw) ++ " \x7b " ++ decls ++ " \x7d\n"

/-- Modelled from the spec: the grouping key of a resolved rule — direction
together with pixel value (§4.3 "Group remaining entries by
(direction, pixels)"). -/
def groupKey (t : Tok) : List Char × List Char := (t.type, t.value)

/-- Modelled from the spec: the media-query head for a group key — `max`
compares "at most this width", `min` "at least this width" (§4.3). -/
def mediaQueryHead (key : List Char × List Char) : String :=
  (if key.1 = maxLit then "@media (max-width: " else "@media (min-width: ") ++
    String.mk key.2 ++ "px)"

/-- Modelled from the spec: the Rule Resolver applied to every token — a
token whose utility class the engine cannot resolve is dropped (with a
warning) and everything else is kept with its declarations (§4.2, §4.3
"Filter out entries where declarations is absent"). -/
def resolveAll (engine : List Char → Option String)
    (files : List (List Char × Tok)) : List (List Char × Tok × String) :=
  files.filterMap fun p => (engine p.2.utilityClass).map fun d => (p.1, p.2, d)

/-- First-occurrence deduplication of group keys, preserving the order in
which keys are first encountered while iterating resolved rules in scan
order (§4.3). -/
def dedupPairsAux (seen : List (List Char × List Char)) :
    List (List Char × List Char) → List (List Char × List Char)
  | [] => []
  | k :: ks =>
    if k ∈ seen then dedupPairsAux seen ks
    else k :: dedupPairsAux (k :: seen) ks

/-- Modelled from the spec: one media-query block — all rules of a group,
in scan order, inside the media query of the group's key (§4.3). -/
def renderGroup (rs : List (List Char × Tok × String))
    (key : List Char × List Char) : String :=
  mediaQueryHead key ++ " \x7b\n" ++
    String.join ((rs.filter fun r => groupKey r.2.1 = key).map
      fun r => cssRule r.1 r.2.2) ++ "\x7d\n"

/-- Modelled from the spec: `generateCss` of `src/lib/generator.js` (absent
from the provided sources) — resolve every token through the external
engine, drop unresolvable ones, group by (direction, pixels) in
first-encounter order and concatenate one media-query block per group
(§4.2–§4.3).  A structural engine/config failure is fatal to the run
(§4.2), modelled by the `error` branch. -/
def generateCss (engineOk : Bool) (engine : List Char → Option String)
    (files : List (List Char × Tok)) : Except String String :=
  if engineOk then
    let resolved := resolveAll engine files
    .ok (String.join ((dedupPairsAux [] (resolved.map fun r => groupKey r.2.1)).map
      (renderGroup resolved)))
  else .error "could not load the CSS engine or its configuration"

/-- The observable outcome of a completed (non-exiting) `run`: what was
written where, and whether a configured post-command failed. -/
structure RunOk where
  outputPath : String
  css : String
  postCommandFailed : Bool
deriving Repr, DecidableEq

/-- The outcome of one `run(config)` call: `exited c` models a
`process.exit(c)` reached inside `run`, `completed` a run that fell through
normally. -/
inductive RunResult where
  | exited (code : Nat)
  | completed (w : RunOk)
deriving Repr, DecidableEq

/-- The body of `run` after the `require` of the config module succeeded.

* `typeof tailwindConfig.content === 'undefined'` → error + `process.exit(1)`;
* `parseFiles(tailwindConfig.content)` — the scan;
* `generateCss(files, tailwindConfig)` — a thrown engine/config error lands
  in the outer catch, which logs and calls `process.exit(1)`;
* `fs.writeFile(config.output, css)` — a write error likewise exits 1;
* a configured post-command is executed last; its failure is caught by the
  inner catch and only logged (`// Do not exit here ...` in the source). -/
def runCore (cli : CLIConfig) (env : RunEnvBase) (tailwindConfig : TwConfig) :
    RunResult :=
  match tailwindConfig.content with
  | ContentVal.undef => .exited 1
  | content =>
    let files := parseFilesTop content env.enumerate
    match generateCss env.engineOk env.engine files with
    | .error _ => .exited 1
    | .ok css =>
      if env.writeOk then
        .completed
          { outputPath := cli.output, css := css,
            postCommandFailed := cli.postCommand.isSome && !env.postOk }
      else .exited 1

/-- One `run(config)` call including the `require` of the config module:
a module that fails to load logs and exits 1. -/
def run (cli : CLIConfig) (env : RunEnvBase) (disk : Option LoadedModule) :
    RunResult :=
  match disk with
  | none => .exited 1
  | some m => runCore cli env (resolveModule m)

/-- The process exit status of a single non-watch invocation: the code of a
`process.exit` reached inside `run`, or `0` when `run` completes and the
event loop drains. -/
def exitCode (cli : CLIConfig) (env : RunEnvBase)
    (disk : Option LoadedModule) : Nat :=
  match run cli env disk with
  | .exited c => c
  | .completed _ => 0

/-! ## Watch mode (src/index.js, bottom half)

Top-level flow of the script: `run(argv)` once, then — when `--watch` was
given — a second `require` of the config path (served from Node's module
cache), the `content` guard, and `chokidar.watch(content, ...)` whose
`change` handler calls `run(argv)` again for every change event.  Each of
those re-runs performs its own `require`, which again hits the module
cache. -/

/-- One filesystem change event: the per-run environment of the triggered
re-run, and the module on disk at the moment of that run's `require`
(irrelevant when the cache is already populated). -/
structure ChangeEvent where
  env : RunEnvBase
  disk : Option LoadedModule

/-- Node's module cache: a repeated `require` of an already-loaded path
returns the cached module; only with an empty cache is the module read from
disk (and then cached). Returns (loaded module, new cache). -/
def requireCached (cache disk : Option LoadedModule) :
    Option LoadedModule × Option LoadedModule :=
  match cache with
  | some m => (some m, some m)
  | none => (disk, disk)

/-- Result of the guard before `chokidar.watch`:
`!tailwindConfig || typeof tailwindConfig.content === 'undefined' || tailwindConfig.content.length === 0`.
`undefined` content and zero length log a warning and set up no watcher;
on `null` content the `.length` access throws an uncaught `TypeError`,
killing the process. -/
inductive WatchCheck where
  | crashed
  | noWatch
  | watchIt
deriving Repr, DecidableEq

/-- The watch-mode content guard (see `WatchCheck`). -/
def watchCheck : ContentVal → WatchCheck
  | .undef => .noWatch
  | .nullv => .crashed
  | .str s => if s.isEmpty then .noWatch else .watchIt
  | .arr ls => if ls.isEmpty then .noWatch else .watchIt

/-- State of the long-lived watch process while consuming change events:
either already terminated by a `process.exit` (with the runs completed
before that), or alive with the runs completed so far. -/
inductive ProcSt where
  | dead (code : Nat) (runs : List RunOk)
  | live (runs : List RunOk)
deriving Repr, DecidableEq

/-- The `change` handler: `run(argv)` — a fresh `require` (served from the
module cache, which holds the startup module `m`), then the run body.
A `process.exit` inside the run kills the whole watcher process. -/
def stepEvent (cli : CLIConfig) (m : LoadedModule) (st : ProcSt)
    (ev : ChangeEvent) : ProcSt :=
  match st with
  | .dead c rs => .dead c rs
  | .live rs =>
    match requireCached (some m) ev.disk with
    | (some m₂, _) =>
      match runCore cli ev.env (resolveModule m₂) with
      | .exited c => .dead c rs
      | .completed w => .live (rs ++ [w])
    | (none, _) => .dead 1 rs

/-- Everything one invocation of the script observes: CLI arguments, the
config module on disk at startup, the initial run's environment, and the
stream of change events. -/
structure ProcessInput where
  cli : CLIConfig
  disk0 : Option LoadedModule
  initEnv : RunEnvBase
  events : List ChangeEvent

/-- Final observable state of the process: terminated by `process.exit`
(with completed runs), terminated normally with exit status 0, or still
alive watching `patterns`. -/
inductive ProcOutcome where
  | dead (code : Nat) (runs : List RunOk)
  | finished (runs : List RunOk)
  | watching (patterns : ContentVal) (runs : List RunOk)
deriving Repr, DecidableEq

/-- The whole script: `run(argv)` (whose `require` populates the module
cache from `disk0`), then — in watch mode — the second cached `require`,
the content guard, and the event loop; without `--watch` the process ends
with the initial run. -/
def processExec (inp : ProcessInput) : ProcOutcome :=
  match inp.disk0 with
  | none => .dead 1 []
  | some m =>
    match runCore inp.cli inp.initEnv (resolveModule m) with
    | .exited c => .dead c []
    | .completed w0 =>
      if inp.cli.watch then
        match watchCheck (resolveModule m).content with
        | .crashed => .dead 1 [w0]
        | .noWatch => .finished [w0]
        | .watchIt =>
          match inp.events.foldl (stepEvent inp.cli m) (ProcSt.live [w0]) with
          | .dead c rs => .dead c rs
          | .live rs => .watching (resolveModule m).content rs
      else .finished [w0]

/-! ## Helper lemmas on the run model -/

theorem runCore_ne_undef (cli : CLIConfig) (env : RunEnvBase) (cfg : TwConfig)
    (h : cfg.content ≠ ContentVal.undef) :
    runCore cli env cfg =
      match generateCss env.engineOk env.engine
          (parseFilesTop cfg.content env.enumerate) with
      | .error _ => .exited 1
      | .ok css =>
        if env.writeOk then
          RunResult.completed
            { outputPath := cli.output, css := css,
              postCommandFailed := cli.postCommand.isSome && !env.postOk }
        else .exited 1 := by
  cases hc : cfg.content with
  | undef => exact absurd hc h
  | nullv => simp [runCore, hc]
  | str s => simp [runCore, hc]
  | arr ls => simp [runCore, hc]

theorem foldl_stepEvent_dead (cli : CLIConfig) (m : LoadedModule) (c : Nat)
    (rs : List RunOk) (evs : List ChangeEvent) :
    evs.foldl (stepEvent cli m) (ProcSt.dead c rs) = ProcSt.dead c rs := by
  induction evs with
  | nil => rfl
  | cons e es ih => simpa [List.foldl_cons, stepEvent] using ih

/-- An event's `disk` field with the module cleared: what is on disk at the
time of the event cannot be observed once the module cache is populated. -/
def clearDisk (ev : ChangeEvent) : ChangeEvent := { ev with disk := none }

theorem stepEvent_disk_irrel (cli : CLIConfig) (m : LoadedModule)
    (st : ProcSt) (ev : ChangeEvent) :
    stepEvent cli m st ev = stepEvent cli m st (clearDisk ev) := by
  cases st <;> rfl

theorem foldl_stepEvent_clearDisk (cli : CLIConfig) (m : LoadedModule)
    (evs : List ChangeEvent) :
    ∀ st : ProcSt,
      evs.foldl (stepEvent cli m) st =
        (evs.map clearDisk).foldl (stepEvent cli m) st := by
  induction evs with
  | nil => intro st; rfl
  | cons e es ih =>
    intro st
    simp only [List.foldl_cons, List.map_cons]
    rw [← stepEvent_disk_irrel, ih]

/-! ## Claim C4 -/

/-- A run environment in which every external collaborator cooperates and
the glob enumeration finds no files. -/
def envOkEmpty : RunEnvBase :=
  { enumerate := fun _ => [], engineOk := true, engine := fun _ => none,
    writeOk := true, postOk := true }

/-- The same environment with a failing `fs.writeFile`. -/
def envWriteFail : RunEnvBase := { envOkEmpty with writeOk := false }

/-- A config whose `content` is a non-empty glob array. -/
def cfgArr : TwConfig := { content := ContentVal.arr ["src/**"] }

/-- CLI arguments with `--watch`. -/
def cliWatch : CLIConfig :=
  { output := "./dynamic-breakpoints.css", config := "tailwind.config.js",
    watch := true, postCommand := none }

/-- The run record produced by a successful run over an empty enumeration. -/
def w0demo : RunOk :=
  { outputPath := "./dynamic-breakpoints.css", css := "",
    postCommandFailed := false }

/-- Watch session of the C4 counterexample: sound startup, then one change
event whose run hits a write failure. -/
def inpC4 : ProcessInput :=
  { cli := cliWatch, disk0 := some (LoadedModule.cjs cfgArr),
    initEnv := envOkEmpty,
    events := [{ env := envWriteFail, disk := some (LoadedModule.cjs cfgArr) }] }

/-- C4, counterexample.  The claim says a fatal per-run error in watch mode
only logs and returns to `Idle`, and that the watcher process never
terminates because of it.  In the source, the catch block of `run` calls
`process.exit(1)` unconditionally — watch mode included.  Concretely: a
watch session whose first change-event run fails to write the output file
ends with the process dead with exit code 1, not watching. -/
theorem C4_counterexample : processExec inpC4 = ProcOutcome.dead 1 [w0demo] := by
  decide

/-- C4, amended.  In watch mode a fatal per-run error (engine/config load
failure or output write failure) does log, but then terminates the whole
watcher process with that run's non-zero exit status — `run`'s catch block
calls `process.exit(1)` in watch mode too, so the controller does not return
to `Idle` and later change events are never served. -/
theorem C4_theorem (inp : ProcessInput) (m : LoadedModule) (w0 : RunOk)
    (ev : ChangeEvent) (evs₁ evs₂ : List ChangeEvent) (rs : List RunOk)
    (c : Nat)
    (hd : inp.disk0 = some m) (hw : inp.cli.watch = true)
    (h0 : runCore inp.cli inp.initEnv (resolveModule m) = .completed w0)
    (hc : watchCheck (resolveModule m).content = .watchIt)
    (he : inp.events = evs₁ ++ ev :: evs₂)
    (h1 : evs₁.foldl (stepEvent inp.cli m) (ProcSt.live [w0]) = .live rs)
    (hx : runCore inp.cli ev.env (resolveModule m) = .exited c) :
    processExec inp = ProcOutcome.dead c rs := by
  unfold processExec
  rw [hd]
  simp only [h0, hw, if_true, hc]
  rw [he, List.foldl_append, h1, List.foldl_cons]
  have hstep : stepEvent inp.cli m (ProcSt.live rs) ev = ProcSt.dead c rs := by
    simp [stepEvent, requireCached, hx]
  rw [hstep, foldl_stepEvent_dead]

/-- Witness for C4: the hypotheses hold for the concrete session `inpC4`,
and the theorem applied there yields the dead process. -/
theorem C4_witness :
    runCore inpC4.cli inpC4.initEnv (resolveModule (LoadedModule.cjs cfgArr)) =
        RunResult.completed w0demo ∧
      runCore inpC4.cli envWriteFail (resolveModule (LoadedModule.cjs cfgArr)) =
        RunResult.exited 1 ∧
      processExec inpC4 = ProcOutcome.dead 1 [w0demo] :=
  ⟨by decide, by decide,
    C4_theorem inpC4 (LoadedModule.cjs cfgArr) w0demo
      { env := envWriteFail, disk := some (LoadedModule.cjs cfgArr) } [] [] [w0demo] 1
      rfl rfl (by decide) rfl rfl rfl (by decide)⟩

/-! ## Claim C7 -/

/-- The warning issued by `parseFiles` when no content paths are given. -/
def emptyGlobsWarning (contentGlobs : ContentVal) : Option String :=
  if emptyOrMissing contentGlobs then
    some "Warning: No content paths specified in tailwind.config.js. No files will be scanned for dynamic breakpoints."
  else none

/-- CLI arguments without `--watch`. -/
def cliNoWatch : CLIConfig :=
  { output := "./dynamic-breakpoints.css", config := "tailwind.config.js",
    watch := false, postCommand := none }

/-- A config whose `content` field is absent (`undefined`). -/
def cfgUndef : TwConfig := { content := ContentVal.undef }

/-- A config whose `content` field is the empty array. -/
def cfgEmptyArr : TwConfig := { content := ContentVal.arr [] }

/-- C7, counterexample.  The claim says an empty *or missing* glob-pattern
configuration yields a warning, an empty output document and exit status 0.
For a *missing* `content` field the source never reaches `parseFiles`: the
guard `typeof tailwindConfig.content === 'undefined'` in `run` logs an error
and calls `process.exit(1)` — the process exits 1 and writes nothing. -/
theorem C7_counterexample :
    run cliNoWatch envOkEmpty (some (LoadedModule.cjs cfgUndef)) =
        RunResult.exited 1 ∧
      exitCode cliNoWatch envOkEmpty (some (LoadedModule.cjs cfgUndef)) = 1 :=
  ⟨rfl, rfl⟩

/-- C7, amended.  Only an *empty* (not missing) glob-pattern list is
handled gracefully: with `content: []` the pipeline warns, extracts zero
tokens, writes an empty (trivially valid) output document to the configured
path and the process exits 0.  A missing `content` field is instead a fatal
configuration error with exit status 1 (see the counterexample). -/
theorem C7_theorem (cli : CLIConfig) (env : RunEnvBase) (m : LoadedModule)
    (hempty : (resolveModule m).content = ContentVal.arr [])
    (hengine : env.engineOk = true) (hwrite : env.writeOk = true)
    (hpost : cli.postCommand = none) :
    parseFilesTop (resolveModule m).content env.enumerate = [] ∧
      (emptyGlobsWarning (resolveModule m).content).isSome = true ∧
      run cli env (some m) =
        RunResult.completed
          { outputPath := cli.output, css := "", postCommandFailed := false } ∧
      exitCode cli env (some m) = 0 := by
  have hne : (resolveModule m).content ≠ ContentVal.undef := by
    rw [hempty]; intro h; cases h
  have hfiles : parseFilesTop (resolveModule m).content env.enumerate = [] := by
    rw [hempty]; rfl
  have hgen : generateCss env.engineOk env.engine
      (parseFilesTop (resolveModule m).content env.enumerate) =
        Except.ok "" := by
    rw [hfiles, hengine]
    rfl
  have hrun : run cli env (some m) =
      RunResult.completed
        { outputPath := cli.output, css := "", postCommandFailed := false } := by
    show runCore cli env (resolveModule m) = _
    rw [runCore_ne_undef cli env _ hne, hgen]
    simp [hwrite, hpost]
  refine ⟨hfiles, ?_, hrun, ?_⟩
  · rw [hempty]; rfl
  · simp [exitCode, hrun]

/-- Witness for C7: the amended statement holds for a concrete empty-array
configuration. -/
theorem C7_witness :
    (resolveModule (LoadedModule.cjs cfgEmptyArr)).content = ContentVal.arr [] ∧
      (parseFilesTop (resolveModule (LoadedModule.cjs cfgEmptyArr)).content
          envOkEmpty.enumerate = [] ∧
        (emptyGlobsWarning
          (resolveModule (LoadedModule.cjs cfgEmptyArr)).content).isSome = true ∧
        run cliNoWatch envOkEmpty (some (LoadedModule.cjs cfgEmptyArr)) =
          RunResult.completed
            { outputPath := cliNoWatch.output, css := "",
              postCommandFailed := false } ∧
        exitCode cliNoWatch envOkEmpty (some (LoadedModule.cjs cfgEmptyArr)) = 0) :=
  ⟨rfl, C7_theorem cliNoWatch envOkEmpty (LoadedModule.cjs cfgEmptyArr)
    rfl rfl rfl rfl⟩

/-! ## Claim C8 -/

/-- CLI arguments with a configured post-command and no `--watch`. -/
def cliPost : CLIConfig :=
  { output := "./dynamic-breakpoints.css", config := "tailwind.config.js",
    watch := false, postCommand := some "npx tailwindcss -i in.css -o out.css" }

/-- An otherwise sound environment whose post-generation command exits
non-zero. -/
def envPostFail : RunEnvBase := { envOkEmpty with postOk := false }

/-- C8.  A failing (non-zero exit) post-generation command is logged by the
inner catch of `run` but does not change the outcome: the run still
completes with its output written (recorded as `postCommandFailed := true`),
the process exit status is 0, and in watch mode the handler leaves the
process alive, appending the completed run — watch mode is not halted. -/
theorem C8_theorem (cli : CLIConfig) (env : RunEnvBase) (m : LoadedModule)
    (cmd : String)
    (hcontent : (resolveModule m).content ≠ ContentVal.undef)
    (hengine : env.engineOk = true) (hwrite : env.writeOk = true)
    (hcmd : cli.postCommand = some cmd) (hpost : env.postOk = false) :
    ∃ w : RunOk,
      run cli env (some m) = RunResult.completed w ∧
        w.postCommandFailed = true ∧
        exitCode cli env (some m) = 0 ∧
        ∀ (rs : List RunOk) (d : Option LoadedModule),
          stepEvent cli m (ProcSt.live rs) { env := env, disk := d } =
            ProcSt.live (rs ++ [w]) := by
  have hgen : ∃ css, generateCss env.engineOk env.engine
      (parseFilesTop (resolveModule m).content env.enumerate) =
        Except.ok css := by
    rw [hengine]
    exact ⟨_, rfl⟩
  obtain ⟨css, hgen⟩ := hgen
  have hrun : runCore cli env (resolveModule m) =
      RunResult.completed
        { outputPath := cli.output, css := css, postCommandFailed := true } := by
    rw [runCore_ne_undef cli env _ hcontent, hgen]
    simp [hwrite, hcmd, hpost]
  refine ⟨{ outputPath := cli.output, css := css, postCommandFailed := true },
    ?_, rfl, ?_, ?_⟩
  · simpa [run] using hrun
  · simp [exitCode, run, hrun]
  · intro rs d
    simp [stepEvent, requireCached, hrun]

/-- Witness for C8: concrete run with a failing post-command — completed,
exit 0, watch step stays alive. -/
theorem C8_witness :
    ((resolveModule (LoadedModule.cjs cfgArr)).content ≠ ContentVal.undef) ∧
      ∃ w : RunOk,
        run cliPost envPostFail (some (LoadedModule.cjs cfgArr)) =
            RunResult.completed w ∧
          w.postCommandFailed = true ∧
          exitCode cliPost envPostFail (some (LoadedModule.cjs cfgArr)) = 0 ∧
          ∀ (rs : List RunOk) (d : Option LoadedModule),
            stepEvent cliPost (LoadedModule.cjs cfgArr) (ProcSt.live rs)
                { env := envPostFail, disk := d } =
              ProcSt.live (rs ++ [w]) :=
  ⟨by decide,
    C8_theorem cliPost envPostFail (LoadedModule.cjs cfgArr)
      "npx tailwindcss -i in.css -o out.css" (by decide) rfl rfl rfl rfl⟩

/-! ## Claim C10 -/

/-- A second config, different from `cfgArr`, placed on disk during the
C10 witness session. -/
def cfgArrOther : TwConfig := { content := ContentVal.arr ["other/**"] }

/-- Watch session of the C10 witness: the config file on disk changes
between startup and the two change events. -/
def inpC10 : ProcessInput :=
  { cli := cliWatch, disk0 := some (LoadedModule.cjs cfgArr),
    initEnv := envOkEmpty,
    events :=
      [{ env := envOkEmpty, disk := some (LoadedModule.cjs cfgArrOther) },
       { env := envOkEmpty, disk := none }] }

/-- C10.  In watch mode both the watched patterns and the configuration of
every re-run are fixed at startup: the watcher subscribes with the content
of the initially loaded module, and every re-run's `require` is served from
the module cache, so the module on disk at event time is unobservable —
the whole process outcome is unchanged if every event's on-disk module is
erased, and whenever the process ends up watching, the watched patterns are
exactly the startup module's `content`. -/
theorem C10_theorem (inp : ProcessInput) (m : LoadedModule)
    (hd : inp.disk0 = some m) (hw : inp.cli.watch = true) :
    processExec inp =
        processExec { inp with events := inp.events.map clearDisk } ∧
      ∀ ps rs, processExec inp = ProcOutcome.watching ps rs →
        ps = (resolveModule m).content := by
  constructor
  · unfold processExec
    simp only [hd]
    cases hr : runCore inp.cli inp.initEnv (resolveModule m) with
    | exited c => rfl
    | completed w0 =>
      simp only [hw, if_true]
      cases hwc : watchCheck (resolveModule m).content
      · rfl
      · rfl
      · rw [← foldl_stepEvent_clearDisk inp.cli m inp.events (ProcSt.live [w0])]
  · intro ps rs h
    unfold processExec at h
    rw [hd] at h
    simp only at h
    cases hr : runCore inp.cli inp.initEnv (resolveModule m) with
    | exited c => rw [hr] at h; cases h
    | completed w0 =>
      rw [hr, hw] at h
      simp only [if_true] at h
      cases hwc : watchCheck (resolveModule m).content with
      | crashed => rw [hwc] at h; cases h
      | noWatch => rw [hwc] at h; cases h
      | watchIt =>
        rw [hwc] at h
        cases hf : inp.events.foldl (stepEvent inp.cli m) (ProcSt.live [w0]) with
        | dead c rs₂ => rw [hf] at h; cases h
        | live rs₂ =>
          rw [hf] at h
          cases h
          rfl

/-- Witness for C10: the concrete session `inpC10`, in which the on-disk
config changes mid-session, has the same outcome as the session with every
event's on-disk module erased. -/
theorem C10_witness :
    inpC10.disk0 = some (LoadedModule.cjs cfgArr) ∧
      inpC10.cli.watch = true ∧
      processExec inpC10 =
        processExec { inpC10 with events := inpC10.events.map clearDisk } :=
  ⟨rfl, rfl,
    (C10_theorem inpC10 (LoadedModule.cjs cfgArr) rfl rfl).1⟩
